import Mathlib

/-!
Verification development for the MiniMind pretraining driver
(`src/train_pretrain.py`).  The script is a single training loop:
per micro-batch it sets a cosine-scheduled learning rate, runs a forward
pass, computes a masked normalized cross-entropy loss, backpropagates a
scaled loss, and every `accumulation_steps`-th micro-step unscales, clips,
steps the optimizer, updates the scaler and zeroes gradients; it logs every
`log_interval` steps and checkpoints every `save_interval` steps on the
main process.

The embedding below translates that control flow into a pure state machine
over an explicit event trace.  External collaborators that are not part of
the repository source under scrutiny (the transformer forward pass and its
auxiliary loss) are modelled as an arbitrary function parameter, following
the specification's description of them as black boxes.
-/

/-- One micro-batch as produced by the data loader: input token ids `X`,
target ids `Y`, and the per-token validity mask `loss_mask`
(`train_pretrain.py`, line 42).  The batch is flattened over
(batch, sequence) positions, mirroring `view(-1)` in the loss computation. -/
structure Batch where
  X : List ℕ
  Y : List ℕ
  loss_mask : List ℝ

/-- The empty batch, used as the out-of-range default for indexed access. -/
def emptyBatch : Batch := ⟨[], [], []⟩

/-- Model configuration relevant to checkpoint naming
(`LMConfig(dim=..., n_layers=..., max_seq_len=..., use_moe=...)`, line 179). -/
structure LMConfig where
  dim : ℕ
  n_layers : ℕ
  max_seq_len : ℕ
  use_moe : Bool

/-- The parsed command-line configuration (`argparse`, lines 154-177).
`save_dir` and `wandb_run_name` are attributes the script adds after
parsing (lines 180 and 202); they start out absent, which we model with
`Option`.  The run-name string renders the learning-rate float, which has
no exact counterpart on `ℝ`, so the name is modelled by the triple of
values it is built from. -/
structure Args where
  out_dir : String
  epochs : ℕ
  batch_size : ℕ
  learning_rate : ℝ
  device : String
  dtype : String
  use_wandb : Bool
  num_workers : ℕ
  ddp_flag : Bool
  accumulation_steps : ℕ
  grad_clip : ℝ
  warmup_iters : ℕ
  log_interval : ℕ
  save_interval : ℕ
  local_rank : Int
  dim : ℕ
  n_layers : ℕ
  max_seq_len : ℕ
  use_moe : Bool
  data_path : String
  save_dir : Option String
  wandb_run_name : Option (ℕ × ℕ × ℝ)

/-- The default values of the argument parser (lines 155-176); the default
device depends on accelerator availability (line 160). -/
def defaultArgs (cuda_available : Bool) : Args :=
  { out_dir := "out"
    epochs := 1
    batch_size := 32
    learning_rate := 5e-4
    device := if cuda_available then "cuda:0" else "cpu"
    dtype := "bfloat16"
    use_wandb := false
    num_workers := 1
    ddp_flag := false
    accumulation_steps := 8
    grad_clip := 1.0
    warmup_iters := 0
    log_interval := 100
    save_interval := 100
    local_rank := -1
    dim := 512
    n_layers := 8
    max_seq_len := 512
    use_moe := false
    data_path := "./dataset/pretrain_hq.jsonl"
    save_dir := none
    wandb_run_name := none }

/-- Construction of the model configuration from the parsed arguments
(line 179). -/
def mkLMConfig (args : Args) : LMConfig :=
  { dim := args.dim
    n_layers := args.n_layers
    max_seq_len := args.max_seq_len
    use_moe := args.use_moe }

/-- The start-up mutations the script applies to `args` after parsing:
`args.save_dir = os.path.join(args.out_dir)` (line 180),
`args.wandb_run_name = ...` (line 202), and — only under distributed
execution — `args.device = torch.device(DEVICE)` with
`DEVICE = "cuda:{local_rank}"` (lines 148 and 232). -/
def startup (args : Args) (ddp : Bool) (localRank : ℕ) : Args :=
  let a1 := { args with save_dir := some args.out_dir }
  let a2 := { a1 with
    wandb_run_name := some (args.epochs, args.batch_size, args.learning_rate) }
  if ddp then { a2 with device := "cuda:" ++ toString localRank } else a2

/-- The cosine learning-rate schedule (`get_lr`, lines 30-31):
`lr / 10 + 0.5 * lr * (1 + math.cos(math.pi * current_step / total_steps))`. -/
noncomputable def get_lr (current_step total_steps : ℕ) (lr : ℝ) : ℝ :=
  lr / 10 + 0.5 * lr * (1 + Real.cos (Real.pi * current_step / total_steps))

/-- Per-token cross-entropy of one position
(`nn.CrossEntropyLoss(reduction='none')`, lines 40 and 68-71):
for logits `l` and target class `y`, `log (Σ_j exp l_j) - l_y`. -/
noncomputable def crossEntropy (logits : List ℝ) (y : ℕ) : ℝ :=
  Real.log (logits.map Real.exp).sum - logits.getD y 0

/-- Mask-weighted normalization of per-token losses (line 72):
`(loss * loss_mask).sum() / loss_mask.sum()`. -/
noncomputable def maskedNorm (tokenLoss mask : List ℝ) : ℝ :=
  (List.zipWith (fun a b => a * b) tokenLoss mask).sum / mask.sum

/-- The un-divided loss of one micro-batch (lines 67-73): masked normalized
cross-entropy of the model's logits against `Y`, plus the model's auxiliary
loss `res.aux_loss`.  `model` is the black-box forward pass returning
per-position logits and the auxiliary loss. -/
noncomputable def rawLoss (model : List ℕ → List (List ℝ) × ℝ) (b : Batch) : ℝ :=
  maskedNorm (List.zipWith crossEntropy (model b.X).1 b.Y) b.loss_mask + (model b.X).2

/-- The loss actually backpropagated (line 74): `rawLoss` divided by
`accumulation_steps`. -/
noncomputable def microLoss (model : List ℕ → List (List ℝ) × ℝ) (b : Batch)
    (accSteps : ℕ) : ℝ :=
  rawLoss model b / accSteps

/-- The gate `not ddp or dist.get_rank() == 0` used by `Logger` (line 26),
the wandb log (line 114) and the checkpoint write (line 119). -/
def mainProcess (ddp : Bool) (rank : ℕ) : Bool :=
  !ddp || rank == 0

/-- The checkpoint path (lines 121-122):
`f'{args.save_dir}/pretrain_{lm_config.dim}{moe_path}.pth'` with
`moe_path = '_moe' if lm_config.use_moe else ''`. -/
def ckptPath (args : Args) (cfg : LMConfig) : String :=
  args.save_dir.getD "" ++ "/pretrain_" ++ toString cfg.dim ++
    (if cfg.use_moe then "_moe" else "") ++ ".pth"

/-- Observable actions of one run of the training loop, in program order.
`optStep` records which micro-batches' backward contributions (tagged by
(epoch, step)) are sitting in the gradient buffers when the optimizer
update is applied. -/
inductive Event where
  | setLR (lr : ℝ)
  | forward
  | backward
  | unscale
  | clipGrad (maxNorm : ℝ)
  | optStep (applied : List (ℕ × ℕ))
  | scalerUpdate
  | zeroGrad
  | log (epoch step : ℕ) (loss lr : ℝ)
  | wandbLog (loss lr : ℝ)
  | saveCkpt (path : String)
  | evalMode
  | trainMode

/-- The run-wide context: distributed mode and rank (line 217 and
`dist.get_rank()`), whether `wandb` is active (lines 239-245), the model
configuration, the black-box forward pass, and the loaded batches
(`train_loader`; `iter_per_epoch = len(train_loader)`, line 319). -/
structure RunCtx where
  ddp : Bool
  rank : ℕ
  wandbActive : Bool
  lm_config : LMConfig
  model : List ℕ → List (List ℝ) × ℝ
  batches : List Batch

/-- The mutable state threaded through the loop: the configuration object,
the `lr` entries of the optimizer's parameter groups, the pending gradient
contributions (tagged by (epoch, step)) accumulated since the last
`zero_grad`, the model's train/eval mode flag, and the emitted events. -/
structure TrainState where
  args : Args
  lrGroups : List ℝ
  grads : List (ℕ × ℕ)
  modelTraining : Bool
  events : List Event

/-- The state at entry of the epoch loop: optimizer built with
`lr=args.learning_rate` (line 293, a single parameter group), no pending
gradients, model in training mode, nothing logged yet. -/
def initState (args : Args) : TrainState :=
  { args := args
    lrGroups := [args.learning_rate]
    grads := []
    modelTraining := true
    events := [] }

/-- The events emitted by one iteration of the loop body of `train_epoch`
(lines 42-130) at micro-step `step` of epoch `epoch`, from state `st`:
learning-rate assignment (lines 60-62), forward and backward (lines 67-83),
the accumulation-boundary block (lines 93-100), the log block
(lines 102-117, with `Logger`'s internal rank gate from line 26), and the
checkpoint block (lines 119-130). -/
noncomputable def microEvents (ctx : RunCtx) (epoch step : ℕ)
    (st : TrainState) : List Event :=
  let args := st.args
  let n := ctx.batches.length
  let b := ctx.batches.getD step emptyBatch
  let lr := get_lr (epoch * n + step) (args.epochs * n) args.learning_rate
  let lrGroups2 := st.lrGroups.map (fun _ => lr)
  let loss := microLoss ctx.model b args.accumulation_steps
  let ev1 : List Event := [Event.setLR lr, Event.forward, Event.backward]
  let ev2 : List Event :=
    if (step + 1) % args.accumulation_steps == 0 then
      [Event.unscale, Event.clipGrad args.grad_clip,
       Event.optStep (st.grads ++ [(epoch, step)]),
       Event.scalerUpdate, Event.zeroGrad]
    else []
  let ev3 : List Event :=
    if step % args.log_interval == 0 then
      (if mainProcess ctx.ddp ctx.rank then
        [Event.log epoch step (loss * (args.accumulation_steps : ℝ))
          (lrGroups2.getLastD 0)]
       else []) ++
      (if ctx.wandbActive && mainProcess ctx.ddp ctx.rank then
        [Event.wandbLog (loss * (args.accumulation_steps : ℝ))
          (lrGroups2.getLastD 0)]
       else [])
    else []
  let ev4 : List Event :=
    if (step + 1) % args.save_interval == 0 && mainProcess ctx.ddp ctx.rank then
      [Event.evalMode, Event.saveCkpt (ckptPath args ctx.lm_config),
       Event.trainMode]
    else []
  ev1 ++ ev2 ++ ev3 ++ ev4

/-- One iteration of the loop body of `train_epoch` as a state transformer:
all parameter groups receive the scheduled learning rate (lines 61-62), a
backward contribution is appended (line 83) and the buffers are cleared at
an accumulation boundary (lines 93-100), `model.train()` leaves the mode
flag true after a checkpoint (line 130), and the iteration's events are
appended to the trace. -/
noncomputable def microStep (ctx : RunCtx) (epoch step : ℕ)
    (st : TrainState) : TrainState :=
  { args := st.args
    lrGroups := st.lrGroups.map (fun _ =>
      get_lr (epoch * ctx.batches.length + step)
        (st.args.epochs * ctx.batches.length) st.args.learning_rate)
    grads :=
      if (step + 1) % st.args.accumulation_steps == 0 then []
      else st.grads ++ [(epoch, step)]
    modelTraining :=
      if (step + 1) % st.args.save_interval == 0 && mainProcess ctx.ddp ctx.rank
      then true else st.modelTraining
    events := st.events ++ microEvents ctx epoch step st }

/-- The first `m` micro-steps of epoch `epoch` (the loop of line 42 cut
after `m` iterations). -/
noncomputable def stepsUpTo (ctx : RunCtx) (epoch m : ℕ)
    (st : TrainState) : TrainState :=
  (List.range m).foldl (fun s i => microStep ctx epoch i s) st

/-- One full epoch: `for step, (X, Y, loss_mask) in enumerate(train_loader)`
(line 42) iterates over all `len(train_loader)` batches. -/
noncomputable def trainEpoch (ctx : RunCtx) (epoch : ℕ)
    (st : TrainState) : TrainState :=
  stepsUpTo ctx epoch ctx.batches.length st

/-- The whole run: `for epoch in range(args.epochs): train_epoch(epoch, wandb)`
(lines 321-322). -/
noncomputable def trainRun (ctx : RunCtx) (st : TrainState) : TrainState :=
  (List.range st.args.epochs).foldl (fun s e => trainEpoch ctx e s) st

/-- Recognizer for the accumulation-boundary block's events
(lines 94-100). -/
def isQuartetEv : Event → Bool
  | Event.unscale => true
  | Event.clipGrad _ => true
  | Event.optStep _ => true
  | Event.scalerUpdate => true
  | Event.zeroGrad => true
  | _ => false

/-- Recognizer for the checkpoint block's events (lines 120-130). -/
def isSaveEv : Event → Bool
  | Event.evalMode => true
  | Event.saveCkpt _ => true
  | Event.trainMode => true
  | _ => false

/-- Recognizer for the console log line emitted through `Logger`
(lines 104-112). -/
def isLoggerEv : Event → Bool
  | Event.log _ _ _ _ => true
  | _ => false

/-- Recognizer for the optimizer update `scaler.step(optimizer)`
(line 97). -/
def isOptStepEv : Event → Bool
  | Event.optStep _ => true
  | _ => false

/-- Recognizer for `scaler.scale(loss).backward()` (line 83). -/
def isBackwardEv : Event → Bool
  | Event.backward => true
  | _ => false

/-- The checkpoint paths written during a trace, in order. -/
def savePathsOf (evs : List Event) : List String :=
  evs.filterMap (fun e => match e with
    | Event.saveCkpt p => some p
    | _ => none)

/-- A black-box model instance used for concrete evaluation: constant
logits, with an auxiliary loss that depends on the token at position 1 of
the input (as the repository's mixture-of-experts auxiliary loss depends
on every input token). -/
noncomputable def f0 : List ℕ → List (List ℝ) × ℝ :=
  fun X => ([[0], [0]], (X.getD 1 0 : ℝ))

/-- A trivial black-box model for evaluating the control flow. -/
def zeroModel : List ℕ → List (List ℝ) × ℝ := fun _ => ([], 0)

/-- A concrete configuration: two epochs, accumulation every 2 micro-steps,
other values the parser defaults. -/
def argsC1 : Args :=
  { out_dir := "out"
    epochs := 2
    batch_size := 32
    learning_rate := 5e-4
    device := "cpu"
    dtype := "bfloat16"
    use_wandb := false
    num_workers := 1
    ddp_flag := false
    accumulation_steps := 2
    grad_clip := 1.0
    warmup_iters := 0
    log_interval := 100
    save_interval := 100
    local_rank := -1
    dim := 512
    n_layers := 8
    max_seq_len := 512
    use_moe := false
    data_path := "d"
    save_dir := some "out"
    wandb_run_name := none }

/-- A concrete run context: single process, three micro-batches per epoch
(so an epoch length that is not a multiple of `accumulation_steps = 2`). -/
noncomputable def ctxC1 : RunCtx :=
  { ddp := false
    rank := 0
    wandbActive := false
    lm_config := mkLMConfig argsC1
    model := zeroModel
    batches := [emptyBatch, emptyBatch, emptyBatch] }

theorem microStep_events (ctx : RunCtx) (e s : ℕ) (st : TrainState) :
    (microStep ctx e s st).events = st.events ++ microEvents ctx e s st := rfl

theorem microStep_args (ctx : RunCtx) (e s : ℕ) (st : TrainState) :
    (microStep ctx e s st).args = st.args := rfl

theorem microStep_grads (ctx : RunCtx) (e s : ℕ) (st : TrainState) :
    (microStep ctx e s st).grads =
      if (s + 1) % st.args.accumulation_steps == 0 then []
      else st.grads ++ [(e, s)] := rfl

theorem stepsUpTo_zero (ctx : RunCtx) (e : ℕ) (st : TrainState) :
    stepsUpTo ctx e 0 st = st := rfl

theorem stepsUpTo_succ (ctx : RunCtx) (e m : ℕ) (st : TrainState) :
    stepsUpTo ctx e (m + 1) st = microStep ctx e m (stepsUpTo ctx e m st) := by
  simp [stepsUpTo, List.range_succ]

theorem stepsUpTo_args (ctx : RunCtx) (e m : ℕ) (st : TrainState) :
    (stepsUpTo ctx e m st).args = st.args := by
  induction m with
  | zero => rfl
  | succ m ih => rw [stepsUpTo_succ, microStep_args, ih]

theorem foldl_micro_args (ctx : RunCtx) (e : ℕ) :
    ∀ (l : List ℕ) (st : TrainState),
      ((l.foldl (fun s i => microStep ctx e i s) st)).args = st.args := by
  intro l
  induction l with
  | nil => intro st; rfl
  | cons i t ih => intro st; simpa [List.foldl_cons, microStep_args] using ih _

theorem trainEpoch_args (ctx : RunCtx) (e : ℕ) (st : TrainState) :
    (trainEpoch ctx e st).args = st.args := stepsUpTo_args ctx e _ st

theorem trainRun_args (ctx : RunCtx) (st : TrainState) :
    (trainRun ctx st).args = st.args := by
  have h : ∀ (l : List ℕ) (s : TrainState),
      ((l.foldl (fun s2 e => trainEpoch ctx e s2) s)).args = s.args := by
    intro l
    induction l with
    | nil => intro s; rfl
    | cons i t ih =>
      intro s
      rw [List.foldl_cons, ih (trainEpoch ctx i s), trainEpoch_args]
  exact h _ st

theorem getLastD_map_const (l : List ℝ) (c d : ℝ) (h : l ≠ []) :
    (l.map (fun _ => c)).getLastD d = c := by
  induction l with
  | nil => exact absurd rfl h
  | cons a t ih =>
    cases t with
    | nil => simp
    | cons b t2 => simpa using ih (by simp)

/-- C2 counterexample: at step 0 the schedule yields `11/10 * base_lr`
(here `base_lr = 1`, `total_steps = 1`), which is neither equal to
`base_lr` nor within `[base_lr/10, base_lr]`. -/
theorem C2_counterexample :
    get_lr 0 1 1 = 11 / 10 ∧ ¬ get_lr 0 1 1 ≤ 1 := by
  have h : get_lr 0 1 1 = 11 / 10 := by
    rw [get_lr]
    norm_num
  exact ⟨h, by rw [h]; norm_num⟩

/-- C2 (amended): for positive `total_steps` and positive `base_lr`, the
learning rate computed by `get_lr` lies in `[base_lr/10, 11/10 * base_lr]`
for every step index, and equals `11/10 * base_lr` at step 0. -/
theorem C2_theorem (s T : ℕ) (lr : ℝ) (hT : 0 < T) (hlr : 0 < lr) :
    lr / 10 ≤ get_lr s T lr ∧ get_lr s T lr ≤ 11 / 10 * lr ∧
      get_lr 0 T lr = 11 / 10 * lr := by
  have hc1 := Real.neg_one_le_cos (Real.pi * s / T)
  have hc2 := Real.cos_le_one (Real.pi * s / T)
  refine ⟨?_, ?_, ?_⟩
  · rw [get_lr]; nlinarith
  · rw [get_lr]; nlinarith
  · have h0 : Real.pi * ((0 : ℕ) : ℝ) / T = 0 := by simp
    rw [get_lr, h0, Real.cos_zero]; ring

/-- C2 witness: the amended bounds at `s = 1`, `T = 2`, `lr = 1`. -/
theorem C2_witness :
    (0 : ℕ) < 2 ∧ (0 : ℝ) < 1 ∧
      ((1 : ℝ) / 10 ≤ get_lr 1 2 1 ∧ get_lr 1 2 1 ≤ 11 / 10 * 1 ∧
        get_lr 0 2 1 = 11 / 10 * 1) :=
  ⟨by norm_num, by norm_num, C2_theorem 1 2 1 (by norm_num) (by norm_num)⟩

theorem microEvents_filter_quartet (ctx : RunCtx) (e s : ℕ) (st : TrainState) :
    (microEvents ctx e s st).filter isQuartetEv =
      if (s + 1) % st.args.accumulation_steps == 0 then
        [Event.unscale, Event.clipGrad st.args.grad_clip,
         Event.optStep (st.grads ++ [(e, s)]),
         Event.scalerUpdate, Event.zeroGrad]
      else [] := by
  simp only [microEvents]
  by_cases h1 : ((s + 1) % st.args.accumulation_steps == 0) = true <;>
    by_cases h2 : (s % st.args.log_interval == 0) = true <;>
      by_cases h3 : mainProcess ctx.ddp ctx.rank = true <;>
        by_cases h4 : ctx.wandbActive = true <;>
          by_cases h5 : ((s + 1) % st.args.save_interval == 0) = true <;>
            simp [h1, h2, h3, h4, h5, List.filter_append, isQuartetEv]

theorem microEvents_filter_save (ctx : RunCtx) (e s : ℕ) (st : TrainState) :
    (microEvents ctx e s st).filter isSaveEv =
      if (s + 1) % st.args.save_interval == 0 && mainProcess ctx.ddp ctx.rank then
        [Event.evalMode, Event.saveCkpt (ckptPath st.args ctx.lm_config),
         Event.trainMode]
      else [] := by
  simp only [microEvents]
  by_cases h1 : ((s + 1) % st.args.accumulation_steps == 0) = true <;>
    by_cases h2 : (s % st.args.log_interval == 0) = true <;>
      by_cases h3 : mainProcess ctx.ddp ctx.rank = true <;>
        by_cases h4 : ctx.wandbActive = true <;>
          by_cases h5 : ((s + 1) % st.args.save_interval == 0) = true <;>
            simp [h1, h2, h3, h4, h5, List.filter_append, isSaveEv]

theorem microEvents_countOpt (ctx : RunCtx) (e s : ℕ) (st : TrainState) :
    (microEvents ctx e s st).countP isOptStepEv =
      if (s + 1) % st.args.accumulation_steps == 0 then 1 else 0 := by
  simp only [microEvents]
  by_cases h1 : ((s + 1) % st.args.accumulation_steps == 0) = true <;>
    by_cases h2 : (s % st.args.log_interval == 0) = true <;>
      by_cases h3 : mainProcess ctx.ddp ctx.rank = true <;>
        by_cases h4 : ctx.wandbActive = true <;>
          by_cases h5 : ((s + 1) % st.args.save_interval == 0) = true <;>
            simp [h1, h2, h3, h4, h5, List.countP_append, List.countP_cons,
              isOptStepEv]

theorem microEvents_countBackward (ctx : RunCtx) (e s : ℕ) (st : TrainState) :
    (microEvents ctx e s st).countP isBackwardEv = 1 := by
  simp only [microEvents]
  by_cases h1 : ((s + 1) % st.args.accumulation_steps == 0) = true <;>
    by_cases h2 : (s % st.args.log_interval == 0) = true <;>
      by_cases h3 : mainProcess ctx.ddp ctx.rank = true <;>
        by_cases h4 : ctx.wandbActive = true <;>
          by_cases h5 : ((s + 1) % st.args.save_interval == 0) = true <;>
            simp [h1, h2, h3, h4, h5, List.countP_append, List.countP_cons,
              isBackwardEv]

theorem microEvents_savePaths (ctx : RunCtx) (e s : ℕ) (st : TrainState) :
    savePathsOf (microEvents ctx e s st) =
      if (s + 1) % st.args.save_interval == 0 && mainProcess ctx.ddp ctx.rank then
        [ckptPath st.args ctx.lm_config]
      else [] := by
  simp only [microEvents, savePathsOf]
  by_cases h1 : ((s + 1) % st.args.accumulation_steps == 0) = true <;>
    by_cases h2 : (s % st.args.log_interval == 0) = true <;>
      by_cases h3 : mainProcess ctx.ddp ctx.rank = true <;>
        by_cases h4 : ctx.wandbActive = true <;>
          by_cases h5 : ((s + 1) % st.args.save_interval == 0) = true <;>
            simp [h1, h2, h3, h4, h5, List.filterMap_append]

/-- C3: on an accumulation-boundary micro-step — and only there — the
boundary block's operations all happen inside that micro-step's trace, in
exactly the program order: gradient unscaling, gradient-norm clipping to
`args.grad_clip`, optimizer update, scale-factor adjustment, gradient
zeroing; on every other micro-step none of them occur. -/
theorem C3_theorem (ctx : RunCtx) (e s : ℕ) (st : TrainState) :
    (microEvents ctx e s st).filter isQuartetEv =
      if (s + 1) % st.args.accumulation_steps == 0 then
        [Event.unscale, Event.clipGrad st.args.grad_clip,
         Event.optStep (st.grads ++ [(e, s)]),
         Event.scalerUpdate, Event.zeroGrad]
      else [] :=
  microEvents_filter_quartet ctx e s st

/-- C5: a checkpoint write happens in a micro-step's trace exactly when
`(step+1)` is a multiple of `save_interval` and the process is the main one
(`not ddp or rank == 0`); the write goes to the path encoding `dim` and the
MoE flag, with `model.eval()` immediately before and `model.train()`
immediately after; and the main-process gate holds precisely for rank zero
under distributed execution or for the sole process otherwise. -/
theorem C5_theorem (ctx : RunCtx) (e s : ℕ) (st : TrainState) :
    ((microEvents ctx e s st).filter isSaveEv =
      if (s + 1) % st.args.save_interval == 0 && mainProcess ctx.ddp ctx.rank then
        [Event.evalMode, Event.saveCkpt (ckptPath st.args ctx.lm_config),
         Event.trainMode]
      else []) ∧
    (mainProcess ctx.ddp ctx.rank = true ↔ (ctx.ddp = false ∨ ctx.rank = 0)) := by
  refine ⟨microEvents_filter_save ctx e s st, ?_⟩
  simp [mainProcess, Bool.or_eq_true, Bool.not_eq_true']

/-- C1 (amended): within one epoch, after `m` micro-steps exactly
`m / accumulation_steps` optimizer updates have fired — exactly one per
completed block of `accumulation_steps` forward/backward calls, never
more; the trailing `m % accumulation_steps` calls of an epoch produce
none. -/
theorem C1_theorem (ctx : RunCtx) (e : ℕ) (st : TrainState) (m : ℕ) :
    ((stepsUpTo ctx e m st).events).countP isOptStepEv =
      st.events.countP isOptStepEv + m / st.args.accumulation_steps := by
  induction m with
  | zero => simp [stepsUpTo_zero]
  | succ m ih =>
    rw [stepsUpTo_succ, microStep_events, List.countP_append, ih,
      microEvents_countOpt, stepsUpTo_args, Nat.succ_div]
    by_cases hd : st.args.accumulation_steps ∣ (m + 1)
    · have hmod : ((m + 1) % st.args.accumulation_steps == 0) = true := by
        simp [Nat.mod_eq_zero_of_dvd hd]
      rw [if_pos hmod, if_pos hd]
      omega
    · have hmod : ¬ (((m + 1) % st.args.accumulation_steps == 0) = true) := by
        simp only [beq_iff_eq]
        intro hmod0
        exact hd (Nat.dvd_of_mod_eq_zero hmod0)
      rw [if_neg hmod, if_neg hd]
      omega

/-- C1 counterexample: with `accumulation_steps = 2`, two epochs of three
micro-batches each perform 6 forward/backward calls but only 2 optimizer
updates — fewer than one update per 2 calls, because the step counter
resets at the epoch boundary. -/
theorem C1_counterexample :
    (trainRun ctxC1 (initState argsC1)).events.countP isBackwardEv = 6 ∧
    (trainRun ctxC1 (initState argsC1)).events.countP isOptStepEv = 2 ∧
    (2 : ℕ) ≠ 6 / 2 :=
  ⟨rfl, rfl, by decide⟩

theorem microEvents_filter_logger (ctx : RunCtx) (e s : ℕ) (st : TrainState)
    (hA : 0 < st.args.accumulation_steps) (hg : st.lrGroups ≠ []) :
    (microEvents ctx e s st).filter isLoggerEv =
      if s % st.args.log_interval == 0 && mainProcess ctx.ddp ctx.rank then
        [Event.log e s (rawLoss ctx.model (ctx.batches.getD s emptyBatch))
          (get_lr (e * ctx.batches.length + s)
            (st.args.epochs * ctx.batches.length) st.args.learning_rate)]
      else [] := by
  have hcast : (st.args.accumulation_steps : ℝ) ≠ 0 :=
    Nat.cast_ne_zero.mpr hA.ne'
  have hloss : microLoss ctx.model (ctx.batches.getD s emptyBatch)
      st.args.accumulation_steps * (st.args.accumulation_steps : ℝ) =
      rawLoss ctx.model (ctx.batches.getD s emptyBatch) := by
    rw [microLoss]
    exact div_mul_cancel₀ _ hcast
  have hlast : (st.lrGroups.map (fun _ =>
      get_lr (e * ctx.batches.length + s)
        (st.args.epochs * ctx.batches.length) st.args.learning_rate)).getLastD 0 =
      get_lr (e * ctx.batches.length + s)
        (st.args.epochs * ctx.batches.length) st.args.learning_rate :=
    getLastD_map_const _ _ _ hg
  simp only [microEvents]
  by_cases h1 : ((s + 1) % st.args.accumulation_steps == 0) = true <;>
    by_cases h2 : (s % st.args.log_interval == 0) = true <;>
      by_cases h3 : mainProcess ctx.ddp ctx.rank = true <;>
        by_cases h4 : ctx.wandbActive = true <;>
          by_cases h5 : ((s + 1) % st.args.save_interval == 0) = true <;>
            (simp [h1, h2, h3, h4, h5, List.filter_append, isLoggerEv] <;>
              exact ⟨by simpa using hloss, by simpa using hlast⟩)

/-- C6: the console log line appears in a micro-step's trace exactly when
`step % log_interval == 0` and the process is the main one (rank zero
under distributed execution, or the sole process otherwise); the loss it
reports is the backpropagated loss multiplied back by `accumulation_steps`
— that is, the un-divided loss `rawLoss` — and the learning rate it
reports is the scheduled value just written into the optimizer's parameter
groups. -/
theorem C6_theorem (ctx : RunCtx) (e s : ℕ) (st : TrainState)
    (hA : 0 < st.args.accumulation_steps) (hg : st.lrGroups ≠ []) :
    ((microEvents ctx e s st).filter isLoggerEv =
      if s % st.args.log_interval == 0 && mainProcess ctx.ddp ctx.rank then
        [Event.log e s (rawLoss ctx.model (ctx.batches.getD s emptyBatch))
          (get_lr (e * ctx.batches.length + s)
            (st.args.epochs * ctx.batches.length) st.args.learning_rate)]
      else []) ∧
    (mainProcess ctx.ddp ctx.rank = true ↔ (ctx.ddp = false ∨ ctx.rank = 0)) := by
  refine ⟨microEvents_filter_logger ctx e s st hA hg, ?_⟩
  simp [mainProcess, Bool.or_eq_true, Bool.not_eq_true']

/-- C6 witness: the log equation evaluated at epoch 0, step 0 of the
concrete single-process run. -/
theorem C6_witness :
    0 < (initState argsC1).args.accumulation_steps ∧
    (initState argsC1).lrGroups ≠ [] ∧
    (((microEvents ctxC1 0 0 (initState argsC1)).filter isLoggerEv =
      if 0 % (initState argsC1).args.log_interval == 0 &&
          mainProcess ctxC1.ddp ctxC1.rank then
        [Event.log 0 0 (rawLoss ctxC1.model (ctxC1.batches.getD 0 emptyBatch))
          (get_lr (0 * ctxC1.batches.length + 0)
            ((initState argsC1).args.epochs * ctxC1.batches.length)
            (initState argsC1).args.learning_rate)]
      else []) ∧
    (mainProcess ctxC1.ddp ctxC1.rank = true ↔
      (ctxC1.ddp = false ∨ ctxC1.rank = 0))) :=
  ⟨by decide, List.cons_ne_nil _ _,
    C6_theorem ctxC1 0 0 (initState argsC1) (by decide) (List.cons_ne_nil _ _)⟩

theorem ce_mask_sum_congr :
    ∀ (L : List (List ℝ)) (Y1 Y2 : List ℕ) (m : List ℝ),
      Y1.length = Y2.length →
      (∀ i, m.getD i 0 ≠ 0 → Y1.getD i 0 = Y2.getD i 0) →
      (List.zipWith (fun a b => a * b) (List.zipWith crossEntropy L Y1) m).sum =
        (List.zipWith (fun a b => a * b) (List.zipWith crossEntropy L Y2) m).sum := by
  intro L
  induction L with
  | nil => intro Y1 Y2 m _ _; simp
  | cons l Lt ih =>
    intro Y1 Y2 m hlen h
    cases Y1 with
    | nil =>
      cases Y2 with
      | nil => simp
      | cons y2 t2 => simp at hlen
    | cons y1 t1 =>
      cases Y2 with
      | nil => simp at hlen
      | cons y2 t2 =>
        cases m with
        | nil => simp
        | cons mh mt =>
          have htail := ih t1 t2 mt (by simpa using hlen)
            (fun i hi => by
              have := h (i + 1) (by simpa [List.getD_cons_succ] using hi)
              simpa [List.getD_cons_succ] using this)
          simp only [List.zipWith_cons_cons, List.sum_cons]
          rw [htail]
          by_cases hm : mh = 0
          · rw [hm, mul_zero, mul_zero]
          · have hy : y1 = y2 := by
              have := h 0 (by simpa [List.getD_cons_zero] using hm)
              simpa [List.getD_cons_zero] using this
            rw [hy]

/-- C4 counterexample: two batches that differ only at input position 1,
where the loss mask is zero, can yield different losses, because the
black-box model's output (here its auxiliary loss, as for the repository's
mixture-of-experts load-balancing loss) may depend on every input token. -/
theorem C4_counterexample :
    (List.getD [(1 : ℝ), 0] 1 0 = 0) ∧
    (List.getD [(0 : ℕ), 0] 0 0 = List.getD [(0 : ℕ), 5] 0 0) ∧
    microLoss f0 ⟨[0, 0], [0, 0], [1, 0]⟩ 1 ≠
      microLoss f0 ⟨[0, 5], [0, 0], [1, 0]⟩ 1 := by
  refine ⟨by norm_num, by norm_num, ?_⟩
  have h1 : microLoss f0 ⟨[0, 0], [0, 0], [1, 0]⟩ 1 = 0 := by
    simp [microLoss, rawLoss, f0, maskedNorm, crossEntropy, Real.exp_zero]
  have h2 : microLoss f0 ⟨[0, 5], [0, 0], [1, 0]⟩ 1 = 5 := by
    simp [microLoss, rawLoss, f0, maskedNorm, crossEntropy, Real.exp_zero]
  rw [h1, h2]
  norm_num

/-- C4 (amended): the loss is invariant to changes confined to masked
positions of the targets: for a fixed input `X` (hence fixed logits and
auxiliary loss), two target vectors of equal length that agree at every
position where the loss mask is nonzero yield identical losses.  The
invariance does not extend to changes of `X` at masked positions, since
the black-box model's logits and auxiliary loss may depend on every input
token. -/
theorem C4_theorem (f : List ℕ → List (List ℝ) × ℝ) (X : List ℕ)
    (Y1 Y2 : List ℕ) (mask : List ℝ) (A : ℕ)
    (hlen : Y1.length = Y2.length)
    (h : ∀ i, mask.getD i 0 ≠ 0 → Y1.getD i 0 = Y2.getD i 0) :
    microLoss f ⟨X, Y1, mask⟩ A = microLoss f ⟨X, Y2, mask⟩ A := by
  rw [microLoss, microLoss, rawLoss, rawLoss, maskedNorm, maskedNorm]
  rw [ce_mask_sum_congr (f X).1 Y1 Y2 mask hlen h]

/-- C4 witness: the amended invariance at a concrete instance — same
input, targets differing only at masked position 1. -/
theorem C4_witness :
    ([(0 : ℕ), 0] : List ℕ).length = ([(0 : ℕ), 1] : List ℕ).length ∧
    microLoss f0 ⟨[0, 0], [0, 0], [1, 0]⟩ 1 =
      microLoss f0 ⟨[0, 0], [0, 1], [1, 0]⟩ 1 :=
  ⟨rfl, C4_theorem f0 [0, 0] [0, 0] [0, 1] [1, 0] 1 rfl (by
    intro i hi
    match i with
    | 0 => rfl
    | 1 => simp [List.getD] at hi
    | (n + 2) => simp [List.getD] at hi)⟩

/-- C7 counterexample: under distributed execution the script overwrites
the parsed `device` field after creation (`args.device = torch.device(DEVICE)`,
line 232): starting from the parser defaults on a CUDA machine
(`device = "cuda:0"`), a process with local rank 1 ends up with
`device = "cuda:1"`. -/
theorem C7_counterexample :
    (startup (defaultArgs true) true 1).device ≠ (defaultArgs true).device ∧
    (startup (defaultArgs true) true 1).device = "cuda:1" ∧
    (defaultArgs true).device = "cuda:0" := by
  refine ⟨?_, rfl, rfl⟩
  decide

/-- C7 (amended): the start-up phase adds the derived fields `save_dir`
and `wandb_run_name` and — only under distributed execution — overwrites
`device`; every other field listed in the configuration (output directory,
epochs, batch size, learning rate, dtype, accumulation steps, grad-clip
norm, log/save intervals, and, without DDP, the device) is preserved by
start-up, and after start-up the training loop never modifies the
configuration at all. -/
theorem C7_theorem :
    (∀ (args : Args) (d : Bool) (r : ℕ),
      (startup args d r).out_dir = args.out_dir ∧
      (startup args d r).epochs = args.epochs ∧
      (startup args d r).batch_size = args.batch_size ∧
      (startup args d r).learning_rate = args.learning_rate ∧
      (startup args d r).dtype = args.dtype ∧
      (startup args d r).accumulation_steps = args.accumulation_steps ∧
      (startup args d r).grad_clip = args.grad_clip ∧
      (startup args d r).log_interval = args.log_interval ∧
      (startup args d r).save_interval = args.save_interval ∧
      (startup args false r).device = args.device) ∧
    (∀ (ctx : RunCtx) (st : TrainState), (trainRun ctx st).args = st.args) := by
  constructor
  · intro args d r
    cases d <;> simp [startup]
  · intro ctx st
    exact trainRun_args ctx st

/-- C9: the loss normalization of line 72 divides by the sum of the loss
mask: for a batch whose mask entries are all zero the denominator is zero,
so the normalized loss is literally a division by zero (undefined in the
program's floating-point semantics; in this real-number embedding the
quotient is the junk value of division by zero). -/
theorem C9_theorem (tokenLoss mask : List ℝ) (h : ∀ x ∈ mask, x = (0 : ℝ)) :
    mask.sum = 0 ∧
    maskedNorm tokenLoss mask =
      (List.zipWith (fun a b => a * b) tokenLoss mask).sum / (0 : ℝ) := by
  have hsum : mask.sum = 0 := List.sum_eq_zero h
  exact ⟨hsum, by rw [maskedNorm, hsum]⟩

/-- C9 witness: the all-zero mask of length two. -/
theorem C9_witness :
    (∀ x ∈ [(0 : ℝ), 0], x = (0 : ℝ)) ∧
    (List.sum [(0 : ℝ), 0] = 0 ∧
      maskedNorm [(1 : ℝ), 2] [(0 : ℝ), 0] =
        (List.zipWith (fun a b => a * b) [(1 : ℝ), 2] [(0 : ℝ), 0]).sum / (0 : ℝ)) := by
  have h : ∀ x ∈ [(0 : ℝ), 0], x = (0 : ℝ) := by
    intro x hx
    simp at hx
    exact hx
  exact ⟨h, C9_theorem [(1 : ℝ), 2] [(0 : ℝ), 0] h⟩

theorem savePathsOf_append (l1 l2 : List Event) :
    savePathsOf (l1 ++ l2) = savePathsOf l1 ++ savePathsOf l2 :=
  List.filterMap_append l1 l2 _

theorem savePaths_microStep (ctx : RunCtx) (e s : ℕ) (st : TrainState) :
    savePathsOf (microStep ctx e s st).events =
      savePathsOf st.events ++
        (if (s + 1) % st.args.save_interval == 0 && mainProcess ctx.ddp ctx.rank
         then [ckptPath st.args ctx.lm_config] else []) := by
  rw [microStep_events, savePathsOf_append, microEvents_savePaths]

theorem mem_savePaths_foldl (ctx : RunCtx) (e : ℕ) :
    ∀ (l : List ℕ) (st : TrainState) (p : String),
      p ∈ savePathsOf ((l.foldl (fun s i => microStep ctx e i s) st).events) →
      p ∈ savePathsOf st.events ∨ p = ckptPath st.args ctx.lm_config := by
  intro l
  induction l with
  | nil => intro st p hp; exact Or.inl hp
  | cons i t ih =>
    intro st p hp
    rcases ih (microStep ctx e i st) p (by simpa using hp) with h1 | h1
    · rw [savePaths_microStep] at h1
      rcases List.mem_append.mp h1 with h2 | h2
      · exact Or.inl h2
      · right
        by_cases hc : ((i + 1) % st.args.save_interval == 0 &&
            mainProcess ctx.ddp ctx.rank) = true
        · rw [if_pos hc] at h2
          simpa using h2
        · rw [if_neg hc] at h2
          simp at h2
    · right
      rw [microStep_args] at h1
      exact h1

theorem mem_savePaths_epoch (ctx : RunCtx) (e : ℕ) (st : TrainState)
    (p : String) (hp : p ∈ savePathsOf (trainEpoch ctx e st).events) :
    p ∈ savePathsOf st.events ∨ p = ckptPath st.args ctx.lm_config :=
  mem_savePaths_foldl ctx e (List.range ctx.batches.length) st p hp

theorem mem_savePaths_run (ctx : RunCtx) :
    ∀ (l : List ℕ) (st : TrainState) (p : String),
      p ∈ savePathsOf ((l.foldl (fun s e2 => trainEpoch ctx e2 s) st).events) →
      p ∈ savePathsOf st.events ∨ p = ckptPath st.args ctx.lm_config := by
  intro l
  induction l with
  | nil => intro st p hp; exact Or.inl hp
  | cons i t ih =>
    intro st p hp
    rcases ih (trainEpoch ctx i st) p (by simpa using hp) with h1 | h1
    · rcases mem_savePaths_epoch ctx i st p h1 with h2 | h2
      · exact Or.inl h2
      · exact Or.inr h2
    · right
      rw [trainEpoch_args] at h1
      exact h1

/-- C10: every checkpoint path written over the whole run (all epochs, all
steps) is the single constant path determined by the output directory, the
model width and the MoE flag — the trace's list of written paths is a
replication of that one path, so each periodic write overwrites the same
file and only the most recent snapshot survives on disk. -/
theorem C10_theorem (ctx : RunCtx) (args : Args) :
    savePathsOf (trainRun ctx (initState args)).events =
      List.replicate (savePathsOf (trainRun ctx (initState args)).events).length
        (ckptPath args ctx.lm_config) := by
  refine List.eq_replicate_iff.mpr ⟨rfl, ?_⟩
  intro p hp
  rw [trainRun] at hp
  rcases mem_savePaths_run ctx (List.range (initState args).args.epochs)
      (initState args) p hp with h | h
  · simp [initState, savePathsOf] at h
  · exact h

theorem mod_succ_of_ne (m A : ℕ) (hA : 0 < A) (h : (m + 1) % A ≠ 0) :
    (m + 1) % A = m % A + 1 := by
  have hA1 : 1 < A := by
    rcases Nat.lt_or_ge 1 A with h1 | h1
    · exact h1
    · have hA1 : A = 1 := by omega
      rw [hA1, Nat.mod_one] at h
      exact absurd rfl h
  have h1m : 1 % A = 1 := Nat.mod_eq_of_lt hA1
  have hadd : (m + 1) % A = (m % A + 1) % A := by
    conv_lhs => rw [Nat.add_mod, h1m]
  have hlt : m % A < A := Nat.mod_lt m hA
  have hne : m % A + 1 ≠ A := by
    intro he
    rw [hadd, he, Nat.mod_self] at h
    exact h rfl
  have hlt2 : m % A + 1 < A := by omega
  rw [hadd, Nat.mod_eq_of_lt hlt2]

theorem grads_formula (ctx : RunCtx) (e : ℕ) (st : TrainState)
    (hA : 0 < st.args.accumulation_steps) :
    ∀ m, (stepsUpTo ctx e m st).grads =
      (if m < st.args.accumulation_steps then st.grads else []) ++
        (List.range' (m - m % st.args.accumulation_steps)
          (m % st.args.accumulation_steps)).map (fun s => (e, s)) := by
  intro m
  induction m with
  | zero =>
    rw [stepsUpTo_zero]
    simp [hA]
  | succ m ih =>
    rw [stepsUpTo_succ, microStep_grads, stepsUpTo_args, ih]
    by_cases hb : ((m + 1) % st.args.accumulation_steps == 0) = true
    · have hmod : (m + 1) % st.args.accumulation_steps = 0 := by simpa using hb
      rw [if_pos hb, hmod]
      have hd : st.args.accumulation_steps ∣ m + 1 := Nat.dvd_of_mod_eq_zero hmod
      have hge : st.args.accumulation_steps ≤ m + 1 :=
        Nat.le_of_dvd (Nat.succ_pos m) hd
      rw [if_neg (Nat.not_lt.mpr hge)]
      simp
    · have hmod : (m + 1) % st.args.accumulation_steps ≠ 0 := by simpa using hb
      rw [if_neg hb]
      have hsucc : (m + 1) % st.args.accumulation_steps =
          m % st.args.accumulation_steps + 1 :=
        mod_succ_of_ne m st.args.accumulation_steps hA hmod
      have hlem : m % st.args.accumulation_steps ≤ m :=
        Nat.mod_le m st.args.accumulation_steps
      have hsub : m + 1 - (m % st.args.accumulation_steps + 1) =
          m - m % st.args.accumulation_steps := by omega
      have hiff : (m + 1 < st.args.accumulation_steps) ↔
          (m < st.args.accumulation_steps) := by
        constructor
        · omega
        · intro hm
          have hne2 : m + 1 ≠ st.args.accumulation_steps := by
            intro he
            rw [he, Nat.mod_self] at hmod
            exact hmod rfl
          omega
      have hif : (if m + 1 < st.args.accumulation_steps then st.grads else []) =
          (if m < st.args.accumulation_steps then st.grads else []) :=
        if_congr hiff rfl rfl
      have hmm : m - m % st.args.accumulation_steps +
          m % st.args.accumulation_steps = m := by omega
      have hconcat : List.range' (m - m % st.args.accumulation_steps)
          (m % st.args.accumulation_steps + 1) =
          List.range' (m - m % st.args.accumulation_steps)
            (m % st.args.accumulation_steps) ++ [m] := by
        rw [List.range'_1_concat, hmm]
      rw [hsucc, hsub, hif, hconcat, List.map_append, List.append_assoc]
      simp

theorem stepsUpTo_split (ctx : RunCtx) (e : ℕ) (st : TrainState) (a b : ℕ) :
    stepsUpTo ctx e (a + b) st =
      (List.range' a b).foldl (fun s i => microStep ctx e i s)
        (stepsUpTo ctx e a st) := by
  have h : List.range' 0 a ++ List.range' a b = List.range' 0 (a + b) := by
    have h2 := List.range'_append_1 0 a b
    simpa [Nat.add_comm] using h2
  rw [stepsUpTo, stepsUpTo, List.range_eq_range', List.range_eq_range', ← h,
    List.foldl_append]

theorem mem_events_foldl (ctx : RunCtx) (e : ℕ) :
    ∀ (l : List ℕ) (st : TrainState) (x : Event),
      x ∈ st.events →
      x ∈ ((l.foldl (fun s i => microStep ctx e i s) st).events) := by
  intro l
  induction l with
  | nil => intro st x hx; exact hx
  | cons i t ih =>
    intro st x hx
    simp only [List.foldl_cons]
    exact ih _ x (by rw [microStep_events]; exact List.mem_append_left _ hx)

/-- C8: when an epoch's number of micro-steps is not a multiple of
`accumulation_steps` (and is at least one full block), the gradient
contributions of the trailing micro-steps after the epoch's last
accumulation boundary are still sitting in the buffers at the epoch's end
— neither applied nor zeroed — and the next epoch's first optimizer update
applies exactly those trailing contributions together with the next
epoch's first `accumulation_steps` contributions. -/
theorem C8_theorem (ctx : RunCtx) (st : TrainState) (e : ℕ)
    (hA : 0 < st.args.accumulation_steps)
    (hmod : ctx.batches.length % st.args.accumulation_steps ≠ 0)
    (hle : st.args.accumulation_steps ≤ ctx.batches.length) :
    (trainEpoch ctx e st).grads =
      (List.range'
        (ctx.batches.length - ctx.batches.length % st.args.accumulation_steps)
        (ctx.batches.length % st.args.accumulation_steps)).map (fun s => (e, s)) ∧
    (trainEpoch ctx e st).grads ≠ [] ∧
    Event.optStep ((trainEpoch ctx e st).grads ++
        (List.range' 0 st.args.accumulation_steps).map (fun s => (e + 1, s)))
      ∈ (trainEpoch ctx (e + 1) (trainEpoch ctx e st)).events := by
  have hgr : (trainEpoch ctx e st).grads =
      (List.range'
        (ctx.batches.length - ctx.batches.length % st.args.accumulation_steps)
        (ctx.batches.length % st.args.accumulation_steps)).map (fun s => (e, s)) := by
    have h := grads_formula ctx e st hA ctx.batches.length
    rw [trainEpoch, h, if_neg (Nat.not_lt.mpr hle)]
    simp
  refine ⟨hgr, ?_, ?_⟩
  · rw [hgr]
    intro hnil
    have hlen := congrArg List.length hnil
    simp at hlen
    exact hmod hlen
  · have hargsE : (trainEpoch ctx e st).args = st.args := trainEpoch_args ctx e st
    have hAe : 0 < (trainEpoch ctx e st).args.accumulation_steps := by
      rw [hargsE]; exact hA
    have hA1 : st.args.accumulation_steps - 1 + 1 = st.args.accumulation_steps :=
      Nat.sub_add_cancel hA
    have hg2 : (stepsUpTo ctx (e + 1) (st.args.accumulation_steps - 1)
        (trainEpoch ctx e st)).grads =
        (trainEpoch ctx e st).grads ++
          (List.range' 0 (st.args.accumulation_steps - 1)).map
            (fun s => (e + 1, s)) := by
      have h := grads_formula ctx (e + 1) (trainEpoch ctx e st) hAe
        (st.args.accumulation_steps - 1)
      rw [hargsE] at h
      have hlt : st.args.accumulation_steps - 1 < st.args.accumulation_steps := by
        omega
      rw [h, if_pos hlt, Nat.mod_eq_of_lt hlt, Nat.sub_self]
    have hb : ((st.args.accumulation_steps - 1 + 1) %
        (stepsUpTo ctx (e + 1) (st.args.accumulation_steps - 1)
          (trainEpoch ctx e st)).args.accumulation_steps == 0) = true := by
      rw [stepsUpTo_args, hargsE, hA1, Nat.mod_self]
      rfl
    have hpay : (stepsUpTo ctx (e + 1) (st.args.accumulation_steps - 1)
          (trainEpoch ctx e st)).grads ++
          [(e + 1, st.args.accumulation_steps - 1)] =
        (trainEpoch ctx e st).grads ++
          (List.range' 0 st.args.accumulation_steps).map (fun s => (e + 1, s)) := by
      rw [hg2, List.append_assoc]
      congr 1
      conv_rhs => rw [← hA1]
      rw [List.range'_1_concat, List.map_append]
      simp
    have hsteps : stepsUpTo ctx (e + 1) st.args.accumulation_steps
          (trainEpoch ctx e st) =
        microStep ctx (e + 1) (st.args.accumulation_steps - 1)
          (stepsUpTo ctx (e + 1) (st.args.accumulation_steps - 1)
            (trainEpoch ctx e st)) := by
      conv_lhs => rw [← hA1]
      exact stepsUpTo_succ ctx (e + 1) (st.args.accumulation_steps - 1)
        (trainEpoch ctx e st)
    have hmemA : Event.optStep ((trainEpoch ctx e st).grads ++
        (List.range' 0 st.args.accumulation_steps).map (fun s => (e + 1, s))) ∈
        (stepsUpTo ctx (e + 1) st.args.accumulation_steps
          (trainEpoch ctx e st)).events := by
      rw [← hpay, hsteps, microStep_events]
      apply List.mem_append_right
      simp only [microEvents]
      simp [hb]
    have hsplitn : st.args.accumulation_steps +
        (ctx.batches.length - st.args.accumulation_steps) = ctx.batches.length :=
      Nat.add_sub_cancel' hle
    rw [trainEpoch, ← hsplitn, stepsUpTo_split]
    exact mem_events_foldl ctx (e + 1) _ _ _ hmemA

/-- C8 witness: the carry-over at the concrete run (3 micro-steps per
epoch, accumulation every 2): epoch 0 ends with the contribution of its
step 2 pending, and epoch 1's first update applies exactly
steps (0,2), (1,0), (1,1). -/
theorem C8_witness :
    0 < (initState argsC1).args.accumulation_steps ∧
    ctxC1.batches.length % (initState argsC1).args.accumulation_steps ≠ 0 ∧
    (initState argsC1).args.accumulation_steps ≤ ctxC1.batches.length ∧
    ((trainEpoch ctxC1 0 (initState argsC1)).grads =
      (List.range'
        (ctxC1.batches.length -
          ctxC1.batches.length % (initState argsC1).args.accumulation_steps)
        (ctxC1.batches.length % (initState argsC1).args.accumulation_steps)).map
        (fun s => (0, s)) ∧
    (trainEpoch ctxC1 0 (initState argsC1)).grads ≠ [] ∧
    Event.optStep ((trainEpoch ctxC1 0 (initState argsC1)).grads ++
        (List.range' 0 (initState argsC1).args.accumulation_steps).map
          (fun s => (0 + 1, s)))
      ∈ (trainEpoch ctxC1 (0 + 1) (trainEpoch ctxC1 0 (initState argsC1))).events) :=
  ⟨by decide, by decide, by decide,
    C8_theorem ctxC1 (initState argsC1) 0 (by decide) (by decide) (by decide)⟩
